import Mathlib

/-!
Verification of the reference-object extraction utility
(`checks/reference_objects.py`): a shallow embedding of the data model,
the structured parse path, the regex fallback path, the per-file
processing routine and the directory walker, together with theorems
settling the claims of the specification.
-/

namespace RefObjects

/-- One extracted record, mirroring the `ReferenceObject` dataclass. -/
structure ReferenceObject where
  object_name : String
  object_type : String
  pkg_file_path : String
  line_number : Int
deriving DecidableEq, Repr

/-- An element of a parsed markup document, mirroring the data model of
`xml.etree.ElementTree.Element`: a tag, an attribute dictionary, the direct
text appearing right after the start tag (before any child), and the child
elements in document order. -/
inductive XElem where
| mk (tag : String) (attrs : List (String × String)) (text : Option String)
    (children : List XElem)

def XElem.tag : XElem → String
| .mk t _ _ _ => t

def XElem.attrs : XElem → List (String × String)
| .mk _ a _ _ => a

def XElem.text : XElem → Option String
| .mk _ _ x _ => x

def XElem.children : XElem → List XElem
| .mk _ _ _ cs => cs

/-- `Element.get(key)`: look up an attribute value. -/
def getAttr (e : XElem) (key : String) : Option String :=
  List.lookup key e.attrs

mutual

/-- `Element.iter()`: the element itself followed by all descendants,
in document (preorder) order. -/
def XElem.iter : XElem → List XElem
| .mk t a x cs => .mk t a x cs :: iterList cs

def iterList : List XElem → List XElem
| [] => []
| c :: cs => c.iter ++ iterList cs

end

/-- The whitespace characters removed by the Python method `str.strip`
(restricted to the ASCII whitespace characters). -/
def isPySpace (c : Char) : Bool :=
  c = ' ' || c = '\t' || c = '\n' || c = '\r' || c = '\x0b' || c = '\x0c'

/-- The Python method `str.strip` on a character list: drop leading
whitespace, then drop trailing whitespace. -/
def pyStripL (l : List Char) : List Char :=
  ((l.dropWhile isPySpace).reverse.dropWhile isPySpace).reverse

/-- The Python method `str.strip` on strings. -/
def pyStrip (s : String) : String :=
  String.mk (pyStripL s.toList)

/-- The Python method endswith, modelled as a suffix test on the
character lists. -/
def strEndsWith (s suffix : String) : Bool :=
  suffix.toList.isSuffixOf s.toList

/-- The tag test of the structured path: the tag ends with Object or
equals Object. -/
def isObjTag (t : String) : Bool :=
  strEndsWith t "Object" || t == "Object"

/-- The text extraction: strip of obj_elem.text when it is truthy, else the
empty string. -/
def stripText (e : XElem) : String :=
  match e.text with
  | some t => if t ≠ "" then pyStrip t else ""
  | none => ""

/-- The record built on the structured path for a qualifying element. -/
def mkRec (file_path : String) (e : XElem) : ReferenceObject :=
  { object_name := stripText e
    object_type := (getAttr e "Type").getD "Unknown"
    pkg_file_path := file_path
    line_number := 0 }

/-- The per-element body of the structured-path loop: the record the
element contributes, if any. -/
def elemRecord (file_path : String) (e : XElem) : Option ReferenceObject :=
  if isObjTag e.tag then
    if getAttr e "Reference" == some "true" then
      if stripText e ≠ "" then some (mkRec file_path e) else none
    else none
  else none

/-- A qualifying element of the structured path: candidate tag,
`Reference="true"`, and non-empty stripped text. -/
def qualifying (e : XElem) : Bool :=
  isObjTag e.tag && (getAttr e "Reference" == some "true") && (stripText e != "")

/-- The structured-path result for a parsed document. -/
def structuredRecords (file_path : String) (root : XElem) : List ReferenceObject :=
  root.iter.filterMap (elemRecord file_path)

/-! ### The fallback regex engine

The two fallback patterns consist only of case-insensitive literals and
greedy negated-single-character classes `[^c]*`, some capturing.  The
engine below implements Python `re` semantics for exactly this fragment:
leftmost match, greedy classes with backtracking, `findall` scanning
non-overlapping matches left to right. -/

/-- One item of a fallback pattern. -/
inductive RItem where
| lit (s : List Char)
| cls (ban : Char)
| grp (ban : Char)
deriving DecidableEq

/-- Case-insensitive character comparison (`re.IGNORECASE`). -/
def lowerEq (a b : Char) : Bool :=
  a.toLower == b.toLower

/-- Match a case-insensitive literal at the front, returning the rest. -/
def ciDropLit : List Char → List Char → Option (List Char)
| [], cs => some cs
| _ :: _, [] => none
| a :: s, c :: cs => if lowerEq a c then ciDropLit s cs else none

/-- Greedy backtracking for `[^ban]*`: try consuming `n` characters, then
`n-1`, ..., down to `0`, running the continuation `k` on the rest. -/
def tryCls (k : List Char → Option (List Char × List (List Char)))
    (cs : List Char) : Nat → Option (List Char × List (List Char))
| 0 => k cs
| m + 1 =>
  match k (cs.drop (m + 1)) with
  | some r => some r
  | none => tryCls k cs m

/-- Greedy backtracking for a capturing `([^ban]*)`: as `tryCls`, but the
consumed characters are recorded as a capture group. -/
def tryGrp (k : List Char → Option (List Char × List (List Char)))
    (cs : List Char) : Nat → Option (List Char × List (List Char))
| 0 =>
  match k cs with
  | some (rem, gs) => some (rem, [] :: gs)
  | none => none
| m + 1 =>
  match k (cs.drop (m + 1)) with
  | some (rem, gs) => some (rem, cs.take (m + 1) :: gs)
  | none => tryGrp k cs m

/-- Run a pattern at the front of the input; on success return the
remaining input and the capture groups in order. -/
def runPat : List RItem → List Char → Option (List Char × List (List Char))
| [], cs => some (cs, [])
| .lit s :: rest, cs =>
  match ciDropLit s cs with
  | some cs' => runPat rest cs'
  | none => none
| .cls b :: rest, cs => tryCls (runPat rest) cs (cs.takeWhile (fun c => c ≠ b)).length
| .grp b :: rest, cs => tryGrp (runPat rest) cs (cs.takeWhile (fun c => c ≠ b)).length

/-- `re.findall`: scan left to right, collecting the capture groups of
non-overlapping matches.  `fuel` bounds the scan (callers pass
`length + 1`, which is always enough). -/
def findAllPat (pat : List RItem) : Nat → List Char → List (List (List Char))
| 0, _ => []
| fuel + 1, cs =>
  match runPat pat cs with
  | some (rem, gs) =>
    if rem.length < cs.length then gs :: findAllPat pat fuel rem
    else
      match cs with
      | [] => [gs]
      | _ :: cs' => gs :: findAllPat pat fuel cs'
  | none =>
    match cs with
    | [] => []
    | _ :: cs' => findAllPat pat fuel cs'

/-- The forward fallback pattern
`<Object[^>]*Type="([^"]*)"[^>]*Reference="true"[^>]*>([^<]*)</Object>`. -/
def fwdPat : List RItem :=
  [.lit "<Object".toList, .cls '>', .lit "Type=\"".toList, .grp '"',
   .lit "\"".toList, .cls '>', .lit "Reference=\"true\"".toList, .cls '>',
   .lit ">".toList, .grp '<', .lit "</Object>".toList]

/-- The reverse fallback pattern
`<Object[^>]*Reference="true"[^>]*Type="([^"]*)"[^>]*>([^<]*)</Object>`. -/
def revPat : List RItem :=
  [.lit "<Object".toList, .cls '>', .lit "Reference=\"true\"".toList, .cls '>',
   .lit "Type=\"".toList, .grp '"', .lit "\"".toList, .cls '>',
   .lit ">".toList, .grp '<', .lit "</Object>".toList]

/-- The body of the first fallback loop: append a record for a forward
match when its stripped text is non-empty. -/
def fwdStep (file_path : String) (acc : List ReferenceObject)
    (gs : List (List Char)) : List ReferenceObject :=
  match gs with
  | [ty, nm] =>
    let name := pyStripL nm
    if name ≠ [] then
      acc ++ [{ object_name := String.mk name, object_type := String.mk ty,
                pkg_file_path := file_path, line_number := 0 }]
    else acc
  | _ => acc

/-- The body of the second fallback loop: append a record for a reverse
match unless an identical (name, type, path) triple is already present. -/
def revStep (file_path : String) (acc : List ReferenceObject)
    (gs : List (List Char)) : List ReferenceObject :=
  match gs with
  | [ty, nm] =>
    let name := pyStripL nm
    if name ≠ [] then
      if acc.any (fun r =>
          r.object_name == String.mk name && r.object_type == String.mk ty &&
          r.pkg_file_path == file_path) then
        acc
      else
        acc ++ [{ object_name := String.mk name, object_type := String.mk ty,
                  pkg_file_path := file_path, line_number := 0 }]
    else acc
  | _ => acc

/-- The fallback-path result for raw content whose structured parse
failed. -/
def fallbackRecords (file_path : String) (content : String) : List ReferenceObject :=
  let cs := content.toList
  let fwdMatches := findAllPat fwdPat (cs.length + 1) cs
  let revMatches := findAllPat revPat (cs.length + 1) cs
  revMatches.foldl (revStep file_path) (fwdMatches.foldl (fwdStep file_path) [])

/-! ### Per-file processing and the walker -/

/-- The outcome of `open(file_path).read()`. -/
inductive ReadResult where
| ok (content : String)
| err (msg : String)

/-- The outcome of `ET.fromstring(content)`: a parsed tree, an
`ET.ParseError` (which triggers the fallback), or any other exception
(which the outer handler catches). -/
inductive ParseResult where
| tree (root : XElem)
| parseError
| fatal (msg : String)

/-- The warning printed by the outer exception handler. -/
def warnMsg (file_path msg : String) : String :=
  "Warning: Error processing " ++ file_path ++ ": " ++ msg

/-- `process_pkg_for_references`, as a function of the file path, the
read outcome and the structured parser (`ET.fromstring`).  Returns the
extracted records and the warning emitted, if any. -/
def process_pkg_for_references (file_path : String) (r : ReadResult)
    (et : String → ParseResult) : List ReferenceObject × Option String :=
  match r with
  | .err m => ([], some (warnMsg file_path m))
  | .ok content =>
    match et content with
    | .tree root => (structuredRecords file_path root, none)
    | .parseError => (fallbackRecords file_path content, none)
    | .fatal m => ([], some (warnMsg file_path m))

/-- One regular file encountered by `os.walk`, with its basename (what
the .pkg suffix test inspects), its joined path, and its read outcome. -/
structure WalkFile where
  name : String
  path : String
  readResult : ReadResult

/-- `check_reference_objects`, as a function of the structured parser and
the files yielded by the directory walk, in walk order. -/
def check_reference_objects (et : String → ParseResult)
    (walk : List WalkFile) : List ReferenceObject :=
  walk.foldl (fun acc f =>
    if strEndsWith f.name ".pkg" then
      acc ++ (process_pkg_for_references f.path f.readResult et).1
    else acc) []

/-- The records contributed by one walked file: empty unless the name ends
in `.pkg`, else whatever per-file processing returns. -/
def fileRecords (et : String → ParseResult) (f : WalkFile) : List ReferenceObject :=
  if strEndsWith f.name ".pkg" then
    (process_pkg_for_references f.path f.readResult et).1
  else []

/-! ### Concrete demonstration data -/

/-- The example document of the specification. -/
def demoContent : String :=
  "<Root><MyObject Type=\"File\" Reference=\"true\">foo.txt</MyObject></Root>"

/-- The element tree the structured parser yields for `demoContent`. -/
def demoChild : XElem :=
  .mk "MyObject" [("Type", "File"), ("Reference", "true")] (some "foo.txt") []

/-- The root of the parsed `demoContent`. -/
def demoRoot : XElem := .mk "Root" [] none [demoChild]

/-- A structured parser that recognises exactly `demoContent`. -/
def demoEt : String → ParseResult :=
  fun c => if c = demoContent then .tree demoRoot else .parseError

/-- Fallback-deduplication demonstration content: two equivalent elements,
one with the attributes in forward order, one in reverse order. -/
def dedupContent : String :=
  "<Object Type=\"A\" Reference=\"true\">X</Object>" ++
  "<Object Reference=\"true\" Type=\"A\">X</Object>"

/-- The unbalanced-tag example content of the specification. -/
def c4content : String :=
  "<Object Type=\"Lib\" Reference=\"true\">bar.lib<Object>"

/-- A two-record document for the walker demonstration. -/
def twoRecContent : String :=
  "<Root><AObject Type=\"File\" Reference=\"true\">a.txt</AObject>" ++
  "<BObject Type=\"Lib\" Reference=\"true\">b.lib</BObject></Root>"

/-- The element tree the structured parser yields for `twoRecContent`. -/
def twoRecRoot : XElem :=
  .mk "Root" []
    none
    [.mk "AObject" [("Type", "File"), ("Reference", "true")] (some "a.txt") [],
     .mk "BObject" [("Type", "Lib"), ("Reference", "true")] (some "b.lib") []]

/-- A structured parser that recognises exactly `twoRecContent`. -/
def walkEt : String → ParseResult :=
  fun c => if c = twoRecContent then .tree twoRecRoot else .parseError

/-- A walked `.pkg` file producing two records. -/
def walkFileA : WalkFile := ⟨"a.pkg", "proj/a.pkg", .ok twoRecContent⟩

/-- A walked non-`.pkg` file. -/
def walkFileTxt : WalkFile := ⟨"notes.txt", "proj/notes.txt", .ok twoRecContent⟩

/-- A walked `.pkg` file whose read fails. -/
def walkFileB : WalkFile := ⟨"b.pkg", "proj/b.pkg", .err "denied"⟩

/-! ### Helper lemmas -/

theorem elemRecord_eq (path : String) (e : XElem) :
    elemRecord path e = if qualifying e then some (mkRec path e) else none := by
  unfold elemRecord qualifying
  by_cases h1 : isObjTag e.tag = true <;>
    by_cases h2 : (getAttr e "Reference" == some "true") = true <;>
      by_cases h3 : stripText e = "" <;>
        simp [h1, h2, h3]

theorem filterMap_eq_map_filter {α β : Type} (f : α → Option β) (q : α → Bool)
    (g : α → β) (h : ∀ a, f a = if q a then some (g a) else none) :
    ∀ l : List α, l.filterMap f = (l.filter q).map g := by
  intro l
  induction l with
  | nil => simp
  | cons a t ih =>
    rw [List.filterMap_cons, List.filter_cons]
    by_cases hq : q a = true
    · simp [h a, hq, ih]
    · simp [h a, hq, ih]

theorem structuredRecords_eq (path : String) (root : XElem) :
    structuredRecords path root =
      ((XElem.iter root).filter qualifying).map (mkRec path) := by
  unfold structuredRecords
  exact filterMap_eq_map_filter _ _ _ (elemRecord_eq path) _

theorem check_foldl (et : String → ParseResult) :
    ∀ (walk : List WalkFile) (acc : List ReferenceObject),
      walk.foldl (fun acc f =>
        if strEndsWith f.name ".pkg" then
          acc ++ (process_pkg_for_references f.path f.readResult et).1
        else acc) acc = acc ++ (walk.map (fileRecords et)).flatten := by
  intro walk
  induction walk with
  | nil => intro acc; simp
  | cons f t ih =>
    intro acc
    simp only [List.foldl_cons, List.map_cons, List.flatten_cons]
    by_cases h : strEndsWith f.name ".pkg" = true
    · rw [if_pos h, ih, fileRecords, if_pos h, List.append_assoc]
    · rw [if_neg h, ih, fileRecords, if_neg h]
      simp

theorem check_eq_join (et : String → ParseResult) (walk : List WalkFile) :
    check_reference_objects et walk = (walk.map (fileRecords et)).flatten := by
  unfold check_reference_objects
  rw [check_foldl]
  simp

theorem check_cons (et : String → ParseResult) (f : WalkFile) (walk : List WalkFile) :
    check_reference_objects et (f :: walk) =
      fileRecords et f ++ check_reference_objects et walk := by
  rw [check_eq_join, check_eq_join, List.map_cons, List.flatten_cons]

theorem join_map_fileRecords (et : String → ParseResult) :
    ∀ walk : List WalkFile,
      (walk.map (fileRecords et)).flatten =
        ((walk.filter (fun f => strEndsWith f.name ".pkg")).map
          (fun f => (process_pkg_for_references f.path f.readResult et).1)).flatten := by
  intro walk
  induction walk with
  | nil => simp
  | cons f t ih =>
    simp only [List.map_cons, List.flatten_cons, List.filter_cons]
    by_cases h : strEndsWith f.name ".pkg" = true
    · rw [if_pos h]
      simp only [List.map_cons, List.flatten_cons]
      rw [fileRecords, if_pos h, ih]
    · rw [if_neg h]
      rw [fileRecords, if_neg h, ih]
      simp

theorem pyStripL_eq_rdrop (l : List Char) :
    pyStripL l = List.rdropWhile isPySpace (l.dropWhile isPySpace) := rfl

theorem pyStripL_idem (l : List Char) : pyStripL (pyStripL l) = pyStripL l := by
  rw [pyStripL_eq_rdrop, pyStripL_eq_rdrop]
  have hdw : List.dropWhile isPySpace
      (List.rdropWhile isPySpace (l.dropWhile isPySpace)) =
      List.rdropWhile isPySpace (l.dropWhile isPySpace) := by
    rw [List.dropWhile_eq_self_iff]
    intro hl
    have hpre : List.rdropWhile isPySpace (l.dropWhile isPySpace) <+:
        l.dropWhile isPySpace := List.rdropWhile_prefix _ _
    have hlen : 0 < (l.dropWhile isPySpace).length :=
      lt_of_lt_of_le hl hpre.length_le
    have hget : (List.rdropWhile isPySpace (l.dropWhile isPySpace)).get ⟨0, hl⟩ =
        (l.dropWhile isPySpace).get ⟨0, hlen⟩ := by
      simpa [List.get_eq_getElem] using List.IsPrefix.getElem hpre hl
    rw [hget]
    exact List.dropWhile_get_zero_not _ _ hlen
  rw [hdw]
  exact List.rdropWhile_idempotent _ _

theorem pyStrip_idem (s : String) : pyStrip (pyStrip s) = pyStrip s :=
  congrArg String.mk (pyStripL_idem s.toList)

theorem mk_ne_empty {l : List Char} (h : l ≠ []) : String.mk l ≠ "" := by
  intro hc
  apply h
  have hd : (String.mk l).data = ("" : String).data := by rw [hc]
  simpa using hd

/-- A list is a suffix of the list with one more element in front. -/
theorem suffix_cons_self {α : Type} (a : α) (l : List α) : l <:+ a :: l :=
  ⟨[a], rfl⟩

theorem sufMap {l1 l2 : List Char} (f : Char → Char) (h : l1 <:+ l2) :
    l1.map f <:+ l2.map f := by
  obtain ⟨t, ht⟩ := h
  exact ⟨t.map f, by rw [← List.map_append, ht]⟩

theorem preInf {α : Type} {l1 l2 : List α} (h : l1 <+: l2) : l1 <:+: l2 := by
  obtain ⟨t, ht⟩ := h
  exact ⟨[], t, by simpa using ht⟩

theorem sufInf {α : Type} {l1 l2 : List α} (h : l1 <:+ l2) : l1 <:+: l2 := by
  obtain ⟨t, ht⟩ := h
  exact ⟨t, [], by simpa using ht⟩

theorem ciDropLit_spec :
    ∀ (s cs cs' : List Char), ciDropLit s cs = some cs' →
      (s.map Char.toLower <+: cs.map Char.toLower) ∧ cs' <:+ cs := by
  intro s
  induction s with
  | nil =>
    intro cs cs' h
    simp only [ciDropLit, Option.some.injEq] at h
    subst h
    exact ⟨⟨_, rfl⟩, List.suffix_refl _⟩
  | cons a s ih =>
    intro cs cs' h
    cases cs with
    | nil => simp [ciDropLit] at h
    | cons c cs0 =>
      simp only [ciDropLit] at h
      by_cases hac : lowerEq a c = true
      · rw [if_pos hac] at h
        obtain ⟨hpre, hsuf⟩ := ih cs0 cs' h
        refine ⟨?_, hsuf.trans (suffix_cons_self c cs0)⟩
        obtain ⟨t, ht⟩ := hpre
        refine ⟨t, ?_⟩
        have hlow : a.toLower = c.toLower := by simpa [lowerEq] using hac
        simp [hlow, ht]
      · rw [if_neg hac] at h
        exact absurd h (by simp)

theorem tryCls_ex (k : List Char → Option (List Char × List (List Char)))
    (cs : List Char) :
    ∀ (n : Nat) (r : List Char × List (List Char)), tryCls k cs n = some r →
      ∃ m r', k (cs.drop m) = some r' := by
  intro n
  induction n with
  | zero =>
    intro r h
    exact ⟨0, r, by simpa using h⟩
  | succ m ih =>
    intro r h
    simp only [tryCls] at h
    cases hk : k (cs.drop (m + 1)) with
    | some r0 => exact ⟨m + 1, r0, hk⟩
    | none =>
      rw [hk] at h
      exact ih r h

theorem tryGrp_ex (k : List Char → Option (List Char × List (List Char)))
    (cs : List Char) :
    ∀ (n : Nat) (r : List Char × List (List Char)), tryGrp k cs n = some r →
      ∃ m r', k (cs.drop m) = some r' := by
  intro n
  induction n with
  | zero =>
    intro r h
    simp only [tryGrp] at h
    cases hk : k cs with
    | some r0 => exact ⟨0, r0, by simpa using hk⟩
    | none => rw [hk] at h; exact absurd h (by simp)
  | succ m ih =>
    intro r h
    simp only [tryGrp] at h
    cases hk : k (cs.drop (m + 1)) with
    | some r0 => exact ⟨m + 1, r0, hk⟩
    | none =>
      rw [hk] at h
      exact ih r h

theorem runPat_lit_occurs :
    ∀ (pats : List RItem) (cs : List Char) (res : List Char × List (List Char)),
      runPat pats cs = some res → ∀ s : List Char, RItem.lit s ∈ pats →
        s.map Char.toLower <:+: cs.map Char.toLower := by
  intro pats
  induction pats with
  | nil =>
    intro cs res h s hs
    simp at hs
  | cons it rest ih =>
    intro cs res h s hs
    cases it with
    | lit t =>
      simp only [runPat] at h
      cases hd : ciDropLit t cs with
      | none => rw [hd] at h; exact absurd h (by simp)
      | some cs' =>
        rw [hd] at h
        obtain ⟨hpre, hsuf⟩ := ciDropLit_spec t cs cs' hd
        rcases List.mem_cons.mp hs with hst | hsrest
        · cases hst
          exact preInf hpre
        · exact (ih cs' res h s hsrest).trans (sufInf (sufMap Char.toLower hsuf))
    | cls b =>
      simp only [runPat] at h
      obtain ⟨m, r', hk⟩ := tryCls_ex _ cs _ res h
      have hsrest : RItem.lit s ∈ rest := by
        rcases List.mem_cons.mp hs with hbad | hok
        · exact absurd hbad (by simp)
        · exact hok
      have hdropsuf : cs.drop m <:+ cs := ⟨cs.take m, List.take_append_drop m cs⟩
      exact (ih (cs.drop m) r' hk s hsrest).trans
        (sufInf (sufMap Char.toLower hdropsuf))
    | grp b =>
      simp only [runPat] at h
      obtain ⟨m, r', hk⟩ := tryGrp_ex _ cs _ res h
      have hsrest : RItem.lit s ∈ rest := by
        rcases List.mem_cons.mp hs with hbad | hok
        · exact absurd hbad (by simp)
        · exact hok
      have hdropsuf : cs.drop m <:+ cs := ⟨cs.take m, List.take_append_drop m cs⟩
      exact (ih (cs.drop m) r' hk s hsrest).trans
        (sufInf (sufMap Char.toLower hdropsuf))

theorem findAllPat_nil_of_none (pat : List RItem) :
    ∀ (fuel : Nat) (cs : List Char),
      (∀ cs', cs' <:+ cs → runPat pat cs' = none) →
      findAllPat pat fuel cs = [] := by
  intro fuel
  induction fuel with
  | zero => intro cs _; rfl
  | succ f ih =>
    intro cs h
    have h0 : runPat pat cs = none := h cs (List.suffix_refl cs)
    cases cs with
    | nil => simp [findAllPat, h0]
    | cons a cs' =>
      simp only [findAllPat, h0]
      exact ih cs' (fun x hx => h x (hx.trans (suffix_cons_self a cs')))

/-- The needle occurs case-insensitively in the haystack. -/
def ciOccurs (needle hay : List Char) : Prop :=
  needle.map Char.toLower <:+: hay.map Char.toLower

instance (needle hay : List Char) : Decidable (ciOccurs needle hay) :=
  inferInstanceAs (Decidable (needle.map Char.toLower <:+: hay.map Char.toLower))

theorem findAllPat_nil_of_no_lit (pat : List RItem) (s : List Char)
    (hmem : RItem.lit s ∈ pat) (fuel : Nat) (cs : List Char)
    (hno : ¬ ciOccurs s cs) :
    findAllPat pat fuel cs = [] := by
  apply findAllPat_nil_of_none
  intro cs' hsuf
  cases hr : runPat pat cs' with
  | none => rfl
  | some res =>
    exfalso
    apply hno
    exact (runPat_lit_occurs pat cs' res hr s hmem).trans
      (sufInf (sufMap Char.toLower hsuf))

theorem fallback_nil_of_no_ref (path content : String)
    (h : ¬ ciOccurs "Reference=\"true\"".toList content.toList) :
    fallbackRecords path content = [] := by
  simp only [fallbackRecords]
  rw [findAllPat_nil_of_no_lit fwdPat "Reference=\"true\"".toList (by decide) _ _ h,
      findAllPat_nil_of_no_lit revPat "Reference=\"true\"".toList (by decide) _ _ h]
  rfl

theorem fallback_nil_of_no_type (path content : String)
    (h : ¬ ciOccurs "Type=\"".toList content.toList) :
    fallbackRecords path content = [] := by
  simp only [fallbackRecords]
  rw [findAllPat_nil_of_no_lit fwdPat "Type=\"".toList (by decide) _ _ h,
      findAllPat_nil_of_no_lit revPat "Type=\"".toList (by decide) _ _ h]
  rfl

/-- The record invariant: name non-empty and already stripped, the path of
the source file, and line number zero. -/
def recInv (path : String) (r : ReferenceObject) : Prop :=
  r.object_name ≠ "" ∧ pyStrip r.object_name = r.object_name ∧
  r.pkg_file_path = path ∧ r.line_number = 0

theorem pyStrip_stripText (e : XElem) (h : stripText e ≠ "") :
    pyStrip (stripText e) = stripText e := by
  cases ht : e.text with
  | none =>
    simp only [stripText, ht] at h
    exact absurd rfl h
  | some t =>
    simp only [stripText, ht] at h ⊢
    by_cases h0 : t = ""
    · rw [if_neg (by simp [h0])] at h
      exact absurd rfl h
    · rw [if_pos h0] at h ⊢
      exact pyStrip_idem t

theorem structured_inv (path : String) (root : XElem) (r : ReferenceObject)
    (hr : r ∈ structuredRecords path root) : recInv path r := by
  unfold structuredRecords at hr
  obtain ⟨e, _, he⟩ := List.mem_filterMap.mp hr
  rw [elemRecord_eq] at he
  by_cases hq : qualifying e = true
  · rw [if_pos hq] at he
    have hrm : r = mkRec path e := by
      cases he
      rfl
    have hst : stripText e ≠ "" := by
      have := hq
      unfold qualifying at this
      simp only [Bool.and_eq_true, bne_iff_ne] at this
      exact this.2
    subst hrm
    exact ⟨hst, pyStrip_stripText e hst, rfl, rfl⟩
  · rw [if_neg hq] at he
    exact absurd he (by simp)

theorem foldl_inv {β : Type} (P : ReferenceObject → Prop)
    (step : List ReferenceObject → β → List ReferenceObject)
    (hstep : ∀ acc g r, (∀ x ∈ acc, P x) → r ∈ step acc g → P r) :
    ∀ (l : List β) (init : List ReferenceObject),
      (∀ x ∈ init, P x) → ∀ r ∈ l.foldl step init, P r := by
  intro l
  induction l with
  | nil => intro init hi r hr; exact hi r hr
  | cons g t ih =>
    intro init hi r hr
    exact ih (step init g) (fun x hx => hstep init g x hi hx) r hr

theorem fwdStep_inv (path : String) (acc : List ReferenceObject)
    (gs : List (List Char)) (r : ReferenceObject)
    (hacc : ∀ x ∈ acc, recInv path x) (hr : r ∈ fwdStep path acc gs) :
    recInv path r := by
  match gs with
  | [] => exact hacc r hr
  | [g] => exact hacc r hr
  | g1 :: g2 :: g3 :: grest => exact hacc r hr
  | [ty, nm] =>
    simp only [fwdStep] at hr
    by_cases h : pyStripL nm = []
    · rw [if_neg (by simp [h])] at hr
      exact hacc r hr
    · rw [if_pos (by simp [h])] at hr
      rcases List.mem_append.mp hr with hin | hnew
      · exact hacc r hin
      · have hrq : r = ⟨String.mk (pyStripL nm), String.mk ty, path, 0⟩ := by
          simpa using hnew
        subst hrq
        refine ⟨mk_ne_empty h, ?_, rfl, rfl⟩
        exact congrArg String.mk (pyStripL_idem nm)

theorem revStep_inv (path : String) (acc : List ReferenceObject)
    (gs : List (List Char)) (r : ReferenceObject)
    (hacc : ∀ x ∈ acc, recInv path x) (hr : r ∈ revStep path acc gs) :
    recInv path r := by
  match gs with
  | [] => exact hacc r hr
  | [g] => exact hacc r hr
  | g1 :: g2 :: g3 :: grest => exact hacc r hr
  | [ty, nm] =>
    simp only [revStep] at hr
    by_cases h : pyStripL nm = []
    · rw [if_neg (by simp [h])] at hr
      exact hacc r hr
    · rw [if_pos (by simp [h])] at hr
      by_cases hdup : (acc.any (fun x =>
          x.object_name == String.mk (pyStripL nm) &&
          x.object_type == String.mk ty && x.pkg_file_path == path)) = true
      · rw [if_pos hdup] at hr
        exact hacc r hr
      · rw [if_neg hdup] at hr
        rcases List.mem_append.mp hr with hin | hnew
        · exact hacc r hin
        · have hrq : r = ⟨String.mk (pyStripL nm), String.mk ty, path, 0⟩ := by
            simpa using hnew
          subst hrq
          refine ⟨mk_ne_empty h, ?_, rfl, rfl⟩
          exact congrArg String.mk (pyStripL_idem nm)

theorem fallback_inv (path content : String) (r : ReferenceObject)
    (hr : r ∈ fallbackRecords path content) : recInv path r := by
  unfold fallbackRecords at hr
  refine foldl_inv (recInv path) (revStep path)
    (fun acc g x hacc hx => revStep_inv path acc g x hacc hx) _ _ ?_ r hr
  exact foldl_inv (recInv path) (fwdStep path)
    (fun acc g x hacc hx => fwdStep_inv path acc g x hacc hx) _ []
    (by intro x hx; exact absurd hx (by simp))

theorem process_inv (path : String) (rr : ReadResult)
    (et : String → ParseResult) (r : ReferenceObject)
    (hr : r ∈ (process_pkg_for_references path rr et).1) : recInv path r := by
  cases rr with
  | err m =>
    simp only [process_pkg_for_references] at hr
    exact absurd hr (by simp)
  | ok content =>
    simp only [process_pkg_for_references] at hr
    cases het : et content with
    | tree root =>
      rw [het] at hr
      exact structured_inv path root r hr
    | parseError =>
      rw [het] at hr
      exact fallback_inv path content r hr
    | fatal m =>
      rw [het] at hr
      exact absurd hr (by simp)

/-! ### Claim theorems -/

/-- Claim C1: on the structured path the extractor returns exactly one
record per qualifying element (tag exactly `Object` or ending in `Object`,
`Reference` equal to the string `true`, non-empty stripped text), in
document traversal order, each with `object_name` the stripped direct text
and `object_type` the `Type` attribute; in particular the parsed form of
`<Root><MyObject Type="File" Reference="true">foo.txt</MyObject></Root>`
yields exactly one record `(foo.txt, File)`. -/
theorem structured_extraction_correct :
    (∀ (path : String) (root : XElem), structuredRecords path root =
      ((XElem.iter root).filter qualifying).map (mkRec path)) ∧
    (∀ (path content : String) (et : String → ParseResult) (root : XElem),
      et content = ParseResult.tree root →
      (process_pkg_for_references path (.ok content) et).1 =
        structuredRecords path root) ∧
    (process_pkg_for_references "proj/a.pkg" (.ok demoContent) demoEt).1 =
      [⟨"foo.txt", "File", "proj/a.pkg", 0⟩] := by
  refine ⟨fun path root => structuredRecords_eq path root, ?_, ?_⟩
  · intro path content et root het
    simp only [process_pkg_for_references, het]
  · decide

/-- Witness for C1: the general structured-path equation applied to the
concrete demonstration document. -/
theorem structured_extraction_correct_witness :
    (process_pkg_for_references "proj/a.pkg" (.ok demoContent) demoEt).1 =
      structuredRecords "proj/a.pkg" demoRoot :=
  structured_extraction_correct.2.1 "proj/a.pkg" demoContent demoEt demoRoot rfl

/-- Claim C2: content-related failures never escape per-file processing: a
read error, or a non-ParseError exception raised by the structured parse,
yields an empty record list plus a warning naming the file, and the walker
processes every file independently of the others. -/
theorem error_containment :
    (∀ (path msg : String) (et : String → ParseResult),
      process_pkg_for_references path (.err msg) et =
        ([], some (warnMsg path msg))) ∧
    (∀ (path content m : String) (et : String → ParseResult),
      et content = ParseResult.fatal m →
      process_pkg_for_references path (.ok content) et =
        ([], some (warnMsg path m))) ∧
    (∀ (et : String → ParseResult) (f : WalkFile) (walk : List WalkFile),
      check_reference_objects et (f :: walk) =
        fileRecords et f ++ check_reference_objects et walk) := by
  refine ⟨fun path msg et => rfl, ?_, fun et f walk => check_cons et f walk⟩
  intro path content m et h
  simp only [process_pkg_for_references, h]

/-- Witness for C2: a file whose structured parse raises a non-ParseError
exception contributes zero records and one warning. -/
theorem error_containment_witness :
    process_pkg_for_references "proj/b.pkg" (.ok "junk")
        (fun _ => ParseResult.fatal "boom") =
      ([], some (warnMsg "proj/b.pkg" "boom")) :=
  error_containment.2.1 "proj/b.pkg" "junk" "boom" _ rfl

/-- Claim C3: on the fallback path, content holding two equivalent Object
elements, one matched by the forward pattern and one by the reverse
pattern, produces exactly one record for the (name, type) pair: the
reverse pass deduplicates by exact (name, type, path) triple against the
records already collected for the file. -/
theorem fallback_dedup_across_variants :
    fallbackRecords "proj/a.pkg" dedupContent =
      [⟨"X", "A", "proj/a.pkg", 0⟩] := by decide

/-- Counterexample for C4: on the unbalanced content
`<Object Type="Lib" Reference="true">bar.lib<Object>` the fallback path
produces zero records, not the single record the claim asserts (both
fallback patterns require a literal closing `</Object>` tag, which this
content lacks). -/
theorem unbalanced_example_counterexample :
    (process_pkg_for_references "proj/a.pkg" (.ok c4content)
        (fun _ => ParseResult.parseError)).1 = [] ∧
    (process_pkg_for_references "proj/a.pkg" (.ok c4content)
        (fun _ => ParseResult.parseError)).1 ≠
      [⟨"bar.lib", "Lib", "proj/a.pkg", 0⟩] := ⟨by decide, by decide⟩

/-- Amended C4: for the input content
`<Object Type="Lib" Reference="true">bar.lib<Object>` the structured parse
fails and the fallback pattern path produces no records. -/
theorem unbalanced_example_amended :
    fallbackRecords "proj/a.pkg" c4content = [] := by decide

/-- Claim C5: an element whose Reference attribute is absent or differs
from the exact string `true` contributes no record: on the structured path
the comparison is exact and case-sensitive, and the fallback path can only
match content containing the literal `Reference="true"` (case-insensitive),
so content without it yields no records. -/
theorem reference_true_required :
    (∀ (path : String) (e : XElem), getAttr e "Reference" ≠ some "true" →
      elemRecord path e = none) ∧
    (∀ (path content : String),
      ¬ ciOccurs "Reference=\"true\"".toList content.toList →
      fallbackRecords path content = []) ∧
    elemRecord "proj/a.pkg"
      (.mk "Object" [("Type", "A"), ("Reference", "True")] (some "x") []) = none ∧
    elemRecord "proj/a.pkg"
      (.mk "Object" [("Type", "A"), ("Reference", "1")] (some "x") []) = none ∧
    elemRecord "proj/a.pkg"
      (.mk "Object" [("Type", "A"), ("Reference", "false")] (some "x") []) = none ∧
    elemRecord "proj/a.pkg" (.mk "Object" [("Type", "A")] (some "x") []) = none ∧
    fallbackRecords "proj/a.pkg"
      "<Object Type=\"A\" Reference=\"false\">X</Object>" = [] := by
  refine ⟨?_, fun path content h => fallback_nil_of_no_ref path content h,
    by decide, by decide, by decide, by decide, by decide⟩
  intro path e h
  have hbe : (getAttr e "Reference" == some "true") = false := by
    simpa using h
  simp [elemRecord, hbe]

/-- Witness for C5: an element without a Reference attribute yields no
record, and fallback content without the `Reference="true"` literal yields
no records. -/
theorem reference_true_required_witness :
    elemRecord "w5.pkg" (.mk "Object" [] (some "x") []) = none ∧
    fallbackRecords "w5.pkg" "<Object Type=\"A\">X</Object>" = [] :=
  ⟨reference_true_required.1 "w5.pkg" _ (by decide),
   reference_true_required.2.1 "w5.pkg" _ (by decide)⟩

/-- Claim C6: the fallback path never produces a record for an element
without an explicit Type attribute: both fallback patterns require the
literal `Type="`, so content without it yields no records. -/
theorem fallback_requires_type :
    (∀ (path content : String), ¬ ciOccurs "Type=\"".toList content.toList →
      fallbackRecords path content = []) ∧
    fallbackRecords "proj/a.pkg" "<Object Reference=\"true\">X</Object" = [] :=
  ⟨fun path content h => fallback_nil_of_no_type path content h, by decide⟩

/-- Witness for C6: fallback content with `Reference="true"` but no Type
attribute yields no records. -/
theorem fallback_requires_type_witness :
    fallbackRecords "w6.pkg" "<Object Reference=\"true\">Y</Object>" = [] :=
  fallback_requires_type.1 "w6.pkg" _ (by decide)

/-- Claim C7: on the structured path, a qualifying element with
`Reference="true"`, non-empty stripped text, and no Type attribute yields
a record whose type is the sentinel `Unknown`; any such element appearing
in a document contributes that record to the result. -/
theorem missing_type_defaults_unknown :
    ∀ (path : String) (e : XElem) (t : String), isObjTag e.tag = true →
      getAttr e "Reference" = some "true" → getAttr e "Type" = none →
      e.text = some t → pyStrip t ≠ "" →
      elemRecord path e = some ⟨pyStrip t, "Unknown", path, 0⟩ ∧
      ∀ root : XElem, e ∈ XElem.iter root →
        (⟨pyStrip t, "Unknown", path, 0⟩ : ReferenceObject) ∈
          structuredRecords path root := by
  intro path e t hob href htype htext hst
  have ht0 : t ≠ "" := by
    intro h0
    apply hst
    rw [h0]
    rfl
  have hstrip : stripText e = pyStrip t := by
    simp only [stripText, htext]
    rw [if_pos ht0]
  have hrec : elemRecord path e = some ⟨pyStrip t, "Unknown", path, 0⟩ := by
    unfold elemRecord mkRec
    rw [href, htype, hstrip]
    simp [hob, hst]
  refine ⟨hrec, ?_⟩
  intro root hmem
  exact List.mem_filterMap.mpr ⟨e, hmem, hrec⟩

/-- Witness for C7: a concrete Object element with `Reference="true"`,
text with surrounding whitespace, and no Type attribute. -/
theorem missing_type_defaults_unknown_witness :
    elemRecord "w7.pkg"
        (XElem.mk "Object" [("Reference", "true")] (some " x ") []) =
      some ⟨pyStrip " x ", "Unknown", "w7.pkg", 0⟩ ∧
    (⟨pyStrip " x ", "Unknown", "w7.pkg", 0⟩ : ReferenceObject) ∈
      structuredRecords "w7.pkg"
        (XElem.mk "Object" [("Reference", "true")] (some " x ") []) := by
  have h := missing_type_defaults_unknown "w7.pkg"
    (XElem.mk "Object" [("Reference", "true")] (some " x ") []) " x "
    (by decide) (by decide) (by decide) rfl (by decide)
  exact ⟨h.1, h.2 _ (List.mem_cons_self _ _)⟩

/-- Claim C8: the walker returns exactly the concatenation, over the
walked files whose names end in `.pkg`, of the per-file record lists, in
walk order; concretely, a walk with a two-record `.pkg` file, a non-pkg
file and an unreadable `.pkg` file yields exactly the two records. -/
theorem walker_aggregation :
    (∀ (et : String → ParseResult) (walk : List WalkFile),
      check_reference_objects et walk =
        ((walk.filter (fun f => strEndsWith f.name ".pkg")).map
          (fun f => (process_pkg_for_references f.path f.readResult et).1)).flatten) ∧
    check_reference_objects walkEt [walkFileA, walkFileTxt, walkFileB] =
      [⟨"a.txt", "File", "proj/a.pkg", 0⟩, ⟨"b.lib", "Lib", "proj/a.pkg", 0⟩] := by
  constructor
  · intro et walk
    rw [check_eq_join, join_map_fileRecords]
  · decide

/-- Claim C9: every record returned by per-file processing, on any path,
has a non-empty already-stripped name, the path of the processed file, and
line number zero. -/
theorem record_invariant :
    ∀ (path : String) (rr : ReadResult) (et : String → ParseResult)
      (r : ReferenceObject), r ∈ (process_pkg_for_references path rr et).1 →
      r.object_name ≠ "" ∧ pyStrip r.object_name = r.object_name ∧
      r.pkg_file_path = path ∧ r.line_number = 0 :=
  fun path rr et r hr => process_inv path rr et r hr

/-- Witness for C9: the invariant holds of the record extracted from the
demonstration document. -/
theorem record_invariant_witness :
    (⟨"foo.txt", "File", "proj/a.pkg", 0⟩ : ReferenceObject).object_name ≠ "" ∧
    pyStrip (⟨"foo.txt", "File", "proj/a.pkg", 0⟩ : ReferenceObject).object_name =
      (⟨"foo.txt", "File", "proj/a.pkg", 0⟩ : ReferenceObject).object_name ∧
    (⟨"foo.txt", "File", "proj/a.pkg", 0⟩ : ReferenceObject).pkg_file_path =
      "proj/a.pkg" ∧
    (⟨"foo.txt", "File", "proj/a.pkg", 0⟩ : ReferenceObject).line_number = 0 :=
  record_invariant "proj/a.pkg" (.ok demoContent) demoEt
    ⟨"foo.txt", "File", "proj/a.pkg", 0⟩ (by decide)

/-- Claim C10: a walk that yields no files (nonexistent root) or no files
named with the `.pkg` suffix produces the empty list, with no error. -/
theorem empty_or_no_pkg_walk :
    (∀ et : String → ParseResult, check_reference_objects et [] = []) ∧
    (∀ (et : String → ParseResult) (walk : List WalkFile),
      (∀ f ∈ walk, strEndsWith f.name ".pkg" = false) →
      check_reference_objects et walk = []) := by
  constructor
  · intro et
    rfl
  · intro et walk h
    rw [check_eq_join, join_map_fileRecords]
    have hnil : walk.filter (fun f => strEndsWith f.name ".pkg") = [] := by
      rw [List.filter_eq_nil_iff]
      intro f hf
      simp [h f hf]
    rw [hnil]
    rfl

/-- Witness for C10: a walk holding only a non-pkg file yields the empty
list. -/
theorem empty_or_no_pkg_walk_witness :
    check_reference_objects demoEt
      [⟨"readme.txt", "proj/readme.txt", .ok "hello"⟩] = [] :=
  empty_or_no_pkg_walk.2 demoEt _ (by decide)

end RefObjects
